import Mathlib

/-!
Shallow embedding of the vee-validate form core
(src/packages/vee-validate/src/types/common.ts) for checking its
natural-language specification.

The form state is modelled with value semantics: JS objects keyed by path
strings become association lists with string keys, mutation becomes
functional update.  The path utilities (getFromPath / setInPath /
unsetPath / isEqual), which live in the repository's utils module and are
not part of the given sources, are modelled from the spec as operations on
a flat path-keyed value tree; the spec declares deep equality and deep
clone to be primitives.
-/

set_option autoImplicit false

namespace VeeValidate

/-- Scalar JavaScript values that can appear as leaves of the value tree. -/
inductive Prim where
  | pnull
  | pbool (b : Bool)
  | pnum (n : Int)
  | pstr (s : String)
deriving DecidableEq, Repr

/-- Values stored at a path of the value tree: undefined, a scalar, or an
array of scalars (checkbox groups).  Nested objects are represented by the
path-keyed tree itself, so they do not recur here. -/
inductive Val where
  | undef
  | prim (p : Prim)
  | arr (elems : List Prim)
deriving DecidableEq, Repr

/-- JavaScript truthiness of a modelled value. -/
def valTruthy : Val → Bool
  | .undef => false
  | .prim .pnull => false
  | .prim (.pbool b) => b
  | .prim (.pnum n) => n != 0
  | .prim (.pstr s) => s != ""
  | .arr _ => true

/-- Whether the value is an array, as tested by Array.isArray. -/
def isArrVal : Val → Bool
  | .arr _ => true
  | _ => false

abbrev PathStr := String

section AssocOps

variable {α : Type}

/-- Reading a key of a JS object: first entry with that key, if any. -/
def lookupA : List (PathStr × α) → PathStr → Option α
  | [], _ => none
  | (k, v) :: rest, q => if k = q then some v else lookupA rest q

/-- Writing a key of a JS object: replace the entry in place, or append. -/
def setA : List (PathStr × α) → PathStr → α → List (PathStr × α)
  | [], k, v => [(k, v)]
  | (k', v') :: rest, k, v => if k' = k then (k, v) :: rest else (k', v') :: setA rest k v

/-- Deleting a key of a JS object. -/
def delA (l : List (PathStr × α)) (k : PathStr) : List (PathStr × α) :=
  l.filter (fun e => e.1 ≠ k)

end AssocOps

/-- Value tree: the authoritative current form values, keyed by path.
Modelled from the spec: a nested mapping from path segments to values,
mutated exclusively via path-set/unset operations (the utils module that
implements getFromPath / setInPath / unsetPath is not among the given
sources). -/
abbrev ValueTree := List (PathStr × Val)

/-- Reading a path of the value tree (getFromPath). -/
def vtGet (t : ValueTree) (p : PathStr) : Option Val := lookupA t p

/-- Setting a path of the value tree (setInPath). -/
def vtSet (t : ValueTree) (p : PathStr) (v : Val) : ValueTree := setA t p v

/-- Unsetting a path of the value tree (unsetPath). -/
def vtUnset (t : ValueTree) (p : PathStr) : ValueTree := delA t p

/-- Deep structural equality of two value trees (the isEqual primitive of
the spec): the trees agree on every path mentioned by either. -/
def vtEq (a b : ValueTree) : Bool :=
  (a.map Prod.fst ++ b.map Prod.fst).all fun p => decide (vtGet a p = vtGet b p)

/-- A registered field (PrivateFieldContext) restricted to the data the form
core reads: a stable id, the type tag, the meta flags, the field-local error
state, and the checkbox/unmount configuration.  The outcome of the field's
own validator on its current value is modelled by the list vErrors
(Modelled from the spec: the field contract validate() returns
a result with a valid flag and an errors list produced by the validator). -/
structure Field where
  id : Nat
  type : Option String := none
  touched : Bool := false
  pending : Bool := false
  valid : Bool := true
  validated : Bool := false
  errors : List String := []
  vErrors : List String := []
  checkedValue : Option Val := none
  uncheckedValue : Option Val := none
  keepValueOnUnmount : Option Bool := none
deriving DecidableEq, Repr

/-- A path registry entry: one field or an ordered group of fields
(FieldPathLookup values are of type Field or an array of fields). -/
inductive FieldEntry where
  | single (f : Field)
  | group (fs : List Field)
deriving DecidableEq, Repr

/-- The ordered list of fields held by an entry (a single field counts as a
one-element list; Object.values(...).flat(1) in calculateFlags). -/
def entryFieldsList : FieldEntry → List Field
  | .single f => [f]
  | .group fs => fs

/-- Applies applyFieldMutation: the mutation runs on every field of a group
and on the lone field of a single entry. -/
def mapEntryFields (g : Field → Field) : FieldEntry → FieldEntry
  | .single f => .single (g f)
  | .group fs => .group (fs.map g)

/-- The wasValidated test of validateSchema: Array.isArray(field) ?
field.some(f => f.meta.validated) : field.meta.validated. -/
def entryAnyValidated : FieldEntry → Bool
  | .single f => f.validated
  | .group fs => fs.any (·.validated)

/-- Updates the field object with the given id inside an entry (JS mutates
the object in place through the shared reference). -/
def updateFieldById (e : FieldEntry) (id : Nat) (g : Field → Field) : FieldEntry :=
  match e with
  | .single f => if f.id = id then .single (g f) else .single f
  | .group fs => .group (fs.map fun f => if f.id = id then g f else f)

/-- The fieldsByPath lookup: path to field or field group. -/
abbrev Registry := List (PathStr × FieldEntry)

/-- Translation of insertFieldAtPath: first field at a path is stored
directly; a second field converts the entry to a group; later fields are
appended to the group. -/
def insertFieldAtPath (reg : Registry) (field : Field) (fieldPath : PathStr) : Registry :=
  match lookupA reg fieldPath with
  | none => setA reg fieldPath (.single field)
  | some (.single g) => setA reg fieldPath (.group [g, field])
  | some (.group fs) => setA reg fieldPath (.group (fs ++ [field]))

/-- Removes the first field with the given id from a list (Array.prototype
splice at the index found by findIndex). -/
def removeById : List Field → Nat → List Field
  | [], _ => []
  | g :: gs, i => if g.id = i then gs else g :: removeById gs i

/-- Translation of removeFieldFromPath: a single entry is deleted when its
id matches; a group entry drops the member with the id and the path entry
is deleted when the group becomes empty. -/
def removeFieldFromPath (reg : Registry) (field : Field) (fieldPath : PathStr) : Registry :=
  match lookupA reg fieldPath with
  | none => reg
  | some (.single g) => if g.id = field.id then delA reg fieldPath else reg
  | some (.group fs) =>
    if fs.any (fun g => g.id = field.id) then
      let fs' := removeById fs field.id
      if fs' = [] then delA reg fieldPath else setA reg fieldPath (.group fs')
    else reg

/-- Error messages passed to the error-bag setters:
string, string array, or undefined. -/
inductive ErrMsg where
  | undef
  | str (s : String)
  | list (l : List String)
deriving DecidableEq, Repr

/-- JavaScript truthiness of an error message argument (an empty array is
truthy, an empty string and undefined are falsy). -/
def errMsgTruthy : ErrMsg → Bool
  | .undef => false
  | .str s => s != ""
  | .list _ => true

/-- Translation of normalizeErrorItem: arrays pass through, truthy strings
become singletons, everything else becomes the empty list. -/
def normalizeErrorItem : ErrMsg → List String
  | .list l => l
  | .str s => if s = "" then [] else [s]
  | .undef => []

/-- The error bag: path to ordered list of messages. -/
abbrev ErrorBag := List (PathStr × List String)

/-- Translation of setFieldErrorBag: a falsy message deletes the path entry,
otherwise the normalized message list is stored. -/
def setFieldErrorBag (bag : ErrorBag) (field : PathStr) (message : ErrMsg) : ErrorBag :=
  if !errMsgTruthy message then delA bag field
  else setA bag field (normalizeErrorItem message)

/-- Translation of setErrorBag: the whole bag is replaced by the entries of
the argument whose messages are truthy, normalized. -/
def setErrorBag (fields : List (PathStr × ErrMsg)) : ErrorBag :=
  fields.foldl
    (fun acc e => if errMsgTruthy e.2 then setA acc e.1 (normalizeErrorItem e.2) else acc) []

/-- Translation of the errors computed ref: the first message of every
path whose bag entry is non-empty. -/
def firstErrors (bag : ErrorBag) : List (PathStr × String) :=
  bag.filterMap fun e => e.2.head?.map fun m => (e.1, m)

/-- First error at a single path, as read by errors.value at a key. -/
def firstErrorAt (bag : ErrorBag) (p : PathStr) : Option String :=
  lookupA (firstErrors bag) p

/-- JavaScript truthiness of reading a possibly-absent string property: an
absent key and an empty string are falsy, any other string is truthy. -/
def strOptTruthy : Option String → Bool
  | none => false
  | some s => s != ""

/-- The ids of the fields held by an entry, in order. -/
def entryIds (e : FieldEntry) : List Nat :=
  (entryFieldsList e).map (·.id)

/-- The mutable state owned by one useForm instance that the claims are
about: the path registry, the error bag, the live value tree, the two
initial-value snapshots, and the submission counters. -/
structure FormS where
  reg : Registry := []
  bag : ErrorBag := []
  values : ValueTree := []
  initialValues : ValueTree := []
  originalInitialValues : ValueTree := []
  isSubmitting : Bool := false
  submitCount : Nat := 0
deriving DecidableEq, Repr

/-- Fresh form state as produced by useForm for plain (non-typed-schema)
initial values: resolveInitialValues deep-clones the provided values into
the live tree and useFormInitialValues clones them into both snapshots. -/
def initFormState (vals : ValueTree) : FormS :=
  { reg := [], bag := [], values := vals, initialValues := vals,
    originalInitialValues := vals, isSubmitting := false, submitCount := 0 }

/-- Removes the first occurrence of a scalar from a list (splice at the
index found by findIndex under deep equality). -/
def removeFirstPrim : List Prim → Prim → List Prim
  | [], _ => []
  | x :: xs, v => if x = v then xs else x :: removeFirstPrim xs v

/-- Modelled from the spec: resolveNextCheckboxValue of the utils module
(not among the given sources).  On an array value it toggles membership of
the checked value; on a scalar it flips between the checked and unchecked
values (spec section 8 checkbox scenarios and design note on group
membership equality). -/
def resolveNextCheckboxValue (currentValue checkedValue uncheckedValue : Val) : Val :=
  match currentValue, checkedValue with
  | .arr vs, .prim c =>
    if vs.any (· = c) then .arr (removeFirstPrim vs c) else .arr (vs ++ [c])
  | .arr vs, _ => .arr vs
  | c, _ => if c = checkedValue then uncheckedValue else checkedValue

/-- Translation of setFieldValue: an unregistered path writes the value
directly (virtual field); a checkbox group merges through
resolveNextCheckboxValue when handed a non-array value; a single checkbox
toggles unless forced or the form is resetting; every other field writes
the cloned value. -/
def setFieldValue (st : FormS) (field : PathStr) (value : Val)
    (force : Bool := false) (resetLock : Bool := false) : FormS :=
  match lookupA st.reg field with
  | none => { st with values := vtSet st.values field value }
  | some (.group fs) =>
    if (fs.head?.map (·.type)).join = some "checkbox" && !isArrVal value then
      let cur := match vtGet st.values field with
        | some w => if valTruthy w then w else .arr []
        | none => .arr []
      { st with values := vtSet st.values field (resolveNextCheckboxValue cur value .undef) }
    else { st with values := vtSet st.values field value }
  | some (.single f) =>
    let newValue :=
      if f.type = some "checkbox" && !force && !resetLock then
        resolveNextCheckboxValue ((vtGet st.values field).getD .undef) value
          (f.uncheckedValue.getD .undef)
      else value
    { st with values := vtSet st.values field newValue }

/-- Translation of stageInitialValue: writes the value into the live tree
and the current snapshot, and into the original snapshot only when asked
to update the original and the form got no explicit initial values. -/
def stageInitialValue (st : FormS) (path : PathStr) (value : Val)
    (updateOriginal : Bool) (optsHasInitialValues : Bool) : FormS :=
  { st with
    values := vtSet st.values path value,
    initialValues := vtSet st.initialValues path value,
    originalInitialValues :=
      if updateOriginal && !optsHasInitialValues then
        vtSet st.originalInitialValues path value
      else st.originalInitialValues }

/-- The per-form aggregate flags produced by calculateFlags. -/
structure FlagsS where
  touched : Bool
  pending : Bool
  valid : Bool
deriving DecidableEq, Repr

/-- Every field currently registered, in registry order
(Object.values(fieldsByPath.value).flat(1).filter(Boolean)). -/
def allRegisteredFields (reg : Registry) : List Field :=
  reg.foldr (fun e acc => entryFieldsList e.2 ++ acc) []

/-- Translation of calculateFlags with the declared merge strategies:
touched and pending merge with some, valid merges with every. -/
def calculateFlags (reg : Registry) : FlagsS :=
  let fields := allRegisteredFields reg
  { touched := fields.any (·.touched),
    pending := fields.any (·.pending),
    valid := fields.all (·.valid) }

/-- The aggregated form meta object returned by useFormMeta. -/
structure FormMetaS where
  touched : Bool
  pending : Bool
  valid : Bool
  dirty : Bool
  initialValues : ValueTree
deriving DecidableEq, Repr

/-- Translation of useFormMeta: aggregate flags from the registry, the
exposed valid additionally requires the first-error map to be empty, and
dirty is the negated deep equality of the live values against whichever
snapshot is passed as the initialValues argument. -/
def useFormMetaModel (reg : Registry) (bag : ErrorBag)
    (currentValues initialValues : ValueTree) : FormMetaS :=
  let flags := calculateFlags reg
  { touched := flags.touched,
    pending := flags.pending,
    valid := flags.valid && (firstErrors bag).isEmpty,
    dirty := !vtEq currentValues initialValues,
    initialValues := initialValues }

/-- The meta aggregation as wired inside useForm: the call site passes
originalInitialValues as the initialValues argument of useFormMeta. -/
def formMetaOf (st : FormS) : FormMetaS :=
  useFormMetaModel st.reg st.bag st.values st.originalInitialValues

/-- A per-field validation result: the valid flag and the message list. -/
structure ValidationResult where
  valid : Bool
  errors : List String
deriving DecidableEq, Repr

/-- Modelled from the spec: the field contract validate() resolves to a
result whose errors are the validator's messages for the current value and
whose valid flag is their emptiness. -/
def fieldValidateResult (f : Field) : ValidationResult :=
  { valid := f.vErrors.isEmpty, errors := f.vErrors }

/-- Translation of validateField: an unregistered path logs a warning (the
returned flag records that the warning fired) and resolves to a
trivially-valid result; a single field validates itself; a group maps
validate over every member and hands back the first promise.  The middle
component lists the ids of every field whose validate() was invoked. -/
def validateFieldModel (reg : Registry) (field : PathStr) :
    Option ValidationResult × List Nat × Bool :=
  match lookupA reg field with
  | none => (some { valid := true, errors := [] }, [], true)
  | some (.single f) => (some (fieldValidateResult f), [f.id], false)
  | some (.group fs) => ((fs.map fieldValidateResult).head?, fs.map (·.id), false)

/-- Modelled from the spec: the state effect of one member's validate()
during a validateField run at a path — the computed errors are pushed into
the field's error state and the form's error bag at the path, and the
member is marked validated (field contract plus spec section 4.2). -/
def runFieldValidationStep (p : PathStr) (s : FormS) (f : Field) : FormS :=
  let reg' := match lookupA s.reg p with
    | some e => setA s.reg p
        (updateFieldById e f.id fun g => { g with errors := g.vErrors, validated := true })
    | none => s.reg
  { s with reg := reg', bag := setFieldErrorBag s.bag p (.list f.vErrors) }

/-- Modelled from the spec: the state effect of running validateField at a
path.  The members resolved at the path run in registration order, so the
last member's write to the bag stands. -/
def runFieldValidationAt (st : FormS) (p : PathStr) : FormS :=
  match lookupA st.reg p with
  | none => st
  | some entry => (entryFieldsList entry).foldl (runFieldValidationStep p) st

/-- Translation of the watch handler installed by registerField for a
reactive field name: after a microtask the field moves from the old path
to the new one; when errors.value at either path is truthy (a present,
non-empty first-error string — JS truthiness of the lookup) the old
path's error is cleared and the new path is re-validated; after a second
microtask the old path's value is unset when no field remains there. -/
def renameHandler (st : FormS) (field : Field) (oldPath newPath : PathStr) : FormS :=
  let st1 : FormS := { st with reg := removeFieldFromPath st.reg field oldPath }
  let st2 : FormS := { st1 with reg := insertFieldAtPath st1.reg field newPath }
  let st3 : FormS :=
    if strOptTruthy (firstErrorAt st2.bag oldPath)
        || strOptTruthy (firstErrorAt st2.bag newPath) then
      let stE : FormS := { st2 with bag := setFieldErrorBag st2.bag oldPath .undef }
      runFieldValidationAt stE newPath
    else st2
  if (lookupA st3.reg oldPath).isSome then st3
  else { st3 with values := vtUnset st3.values oldPath }

/-- The three validation modes of the scheduler. -/
inductive SchemaValidationMode where
  | silent
  | validatedOnly
  | force
deriving DecidableEq, Repr

/-- The settled result of one schema evaluation (the formResult handed to
the reconciliation callback of withLatest): the overall valid flag and the
per-path error lists. -/
structure SchemaResult where
  valid : Bool
  results : List (PathStr × List String)
deriving DecidableEq, Repr

/-- Error messages of the schema result at a path:
formResult.results[path] defaulted to an empty errors list. -/
def msgsOf (res : SchemaResult) (p : PathStr) : List String :=
  (lookupA res.results p).getD []

/-- Keeps the first occurrence of every element, as the spread of a JS
Set does; the first argument accumulates the keys already seen. -/
def dedupFirstAux : List PathStr → List PathStr → List PathStr
  | _, [] => []
  | seen, p :: ps =>
    if p ∈ seen then dedupFirstAux seen ps else p :: dedupFirstAux (p :: seen) ps

/-- First-occurrence deduplication of a path list. -/
def dedupFirst (l : List PathStr) : List PathStr := dedupFirstAux [] l

/-- The path set walked by the reconciliation: the union (as a JS Set) of
the schema result paths, the registered field paths, and every key of the
error bag, computed before any mutation. -/
def schemaPaths (st : FormS) (res : SchemaResult) : List PathStr :=
  dedupFirst (res.results.map Prod.fst ++ st.reg.map Prod.fst ++ st.bag.map Prod.fst)

/-- The aggregated FormValidationResult built by the reconciliation. -/
structure FormVRes where
  valid : Bool
  results : List (PathStr × ValidationResult)
  errors : List (PathStr × String)
deriving DecidableEq, Repr

/-- Translation of the body of the reduce inside validateSchema for one
path: record the per-path result; with no registered field write the
messages straight into the error bag; otherwise always update the fields'
valid meta flag, stop there in silent mode, skip never-validated fields in
validated-only mode, and push the errors into the field state otherwise. -/
def reconcileStep (mode : SchemaValidationMode) (res : SchemaResult)
    (acc : FormS × FormVRes) (p : PathStr) : FormS × FormVRes :=
  let st := acc.1
  let v := acc.2
  let messages := msgsOf res p
  let fieldResult : ValidationResult := { valid := messages.isEmpty, errors := messages }
  let v1 : FormVRes :=
    { v with
      results := setA v.results p fieldResult,
      errors := if messages.isEmpty then v.errors else setA v.errors p (messages.headD "") }
  match lookupA st.reg p with
  | none => ({ st with bag := setFieldErrorBag st.bag p (.list messages) }, v1)
  | some entry =>
    let entry1 := mapEntryFields (fun f => { f with valid := fieldResult.valid }) entry
    let st1 : FormS := { st with reg := setA st.reg p entry1 }
    if mode = .silent then (st1, v1)
    else if mode = .validatedOnly && !entryAnyValidated entry then (st1, v1)
    else
      ({ st1 with
          reg := setA st1.reg p
            (mapEntryFields (fun f => { f with errors := fieldResult.errors }) entry1) }, v1)

/-- Translation of the reconciliation of validateSchema: fold the per-path
step over the union of paths, starting from the schema's overall valid
flag and empty result maps. -/
def validateSchemaModel (mode : SchemaValidationMode) (st : FormS) (res : SchemaResult) :
    FormS × FormVRes :=
  (schemaPaths st res).foldl (reconcileStep mode res)
    (st, { valid := res.valid, results := [], errors := [] })

/-- Net effect of the reconciliation step on a registered entry at its own
path, as a function of the mode and the schema messages (derived
characterization used to state the per-path lemmas). -/
def stepEntry (mode : SchemaValidationMode) (messages : List String)
    (entry : FieldEntry) : FieldEntry :=
  let entry1 := mapEntryFields (fun f => { f with valid := messages.isEmpty }) entry
  if mode = .silent then entry1
  else if mode = .validatedOnly && !entryAnyValidated entry then entry1
  else mapEntryFields (fun f => { f with errors := messages }) entry1

/-- Translation of mutateAllFields(f => f.meta.validated = true), the first
step of a force-mode validate(). -/
def mutateAllValidated (reg : Registry) : Registry :=
  reg.map fun e => (e.1, mapEntryFields (fun f => { f with validated := true }) e.2)

/-- Translation of validate() on the schema path: force mode first marks
every field validated, then the debounced schema run reconciles. -/
def validateModel (st : FormS) (res : SchemaResult) : FormS × FormVRes :=
  let st1 : FormS := { st with reg := mutateAllValidated st.reg }
  validateSchemaModel .force st1 res

/-- Translation of the touch-all step of submissionHandler: every
registered field's touched flag is set (setTouched over all paths;
setTouched on a field is part of the spec's field contract). -/
def setTouchedAll (st : FormS) : FormS :=
  { st with reg := st.reg.map fun e => (e.1, mapEntryFields (fun f => { f with touched := true }) e.2) }

/-- Outcome of invoking a user-supplied callback: a returned value or a
thrown failure. -/
inductive CbRes (R : Type) where
  | ret (r : R)
  | thrown (e : String)
deriving DecidableEq, Repr

/-- Translation of the handler produced by handleSubmit (submissionHandler,
schema form): touch all fields, raise isSubmitting and the submit count,
run a force validation, dispatch the success or failure callback, and in
the final then-handler reset isSubmitting on both the fulfilled and the
rejected path, rethrowing the rejection.  The callbacks are represented by
their outcomes; the returned Except carries a rethrown failure. -/
def submissionHandler {R : Type} (st : FormS) (res : SchemaResult)
    (hasFn : Bool) (fnOut : CbRes R) (hasOnInvalid : Bool) (invOut : CbRes Unit) :
    FormS × Except String (Option R) :=
  let st1 := setTouchedAll st
  let st2 : FormS := { st1 with isSubmitting := true, submitCount := st1.submitCount + 1 }
  let vrun := validateModel st2 res
  let st3 := vrun.1
  let vres := vrun.2
  let inner : Except String (Option R) :=
    if vres.valid && hasFn then
      match fnOut with
      | .ret r => .ok (some r)
      | .thrown e => .error e
    else if !vres.valid && hasOnInvalid then
      match invOut with
      | .ret _ => .ok none
      | .thrown e => .error e
    else .ok none
  match inner with
  | .ok v => ({ st3 with isSubmitting := false }, .ok v)
  | .error e => ({ st3 with isSubmitting := false }, .error e)

/-! Concrete states used by the witnesses and counterexamples below. -/

/-- Form state reached from initial values a = 0 by staging a late initial
value a = 1 for a conditionally mounted field (stageInitialValue without
updateOriginal): live values and current snapshot agree on a = 1 while the
original snapshot still holds a = 0. -/
def stC1cex : FormS :=
  stageInitialValue (initFormState [("a", .prim (.pnum 0))]) "a" (.prim (.pnum 1)) false true

/-- A plain text field used by the C1 witness scenario. -/
def fC1w : Field := { id := 1 }

/-- Value tree with a single path a = 0 used by the C1 witness scenario. -/
def vtC1w : ValueTree := [("a", .prim (.pnum 0))]

/-- Form state whose error bag holds an empty entry at z, reached by
setFieldErrorBag with an empty message array. -/
def stC2cex : FormS := { bag := setFieldErrorBag [] "z" (.list []) }

/-- Schema result with no per-path results. -/
def resEmpty : SchemaResult := { valid := true, results := [] }

/-- Registered field for the C2 witness. -/
def fC2w : Field := { id := 1 }

/-- Form state for the C2 witness: one field at a, a stale error at x. -/
def stC2w : FormS := { reg := [("a", .single fC2w)], bag := [("x", ["stale"])] }

/-- Schema result for the C2 witness: an error at the unregistered path b. -/
def resC2w : SchemaResult := { valid := false, results := [("b", ["msg"])] }

/-- Never-validated field carrying an error, for the C3 witness. -/
def fC3w : Field := { id := 1, validated := false, errors := ["old"] }

/-- Entry of the C3 witness field. -/
def eC3w : FieldEntry := .single fC3w

/-- Form state for the C3 witness: the field at a with a bag entry. -/
def stC3w : FormS := { reg := [("a", eC3w)], bag := [("a", ["old"])] }

/-- Schema result for the C3 witness: a new error at a. -/
def resC3w : SchemaResult := { valid := false, results := [("a", ["new"])] }

/-- Group members for the C5 counterexample and witness: two fields
sharing one path, the first failing its validator. -/
def fC5a : Field := { id := 1, vErrors := ["e1"] }

/-- Second group member for C5. -/
def fC5b : Field := { id := 2 }

/-- Registry with a two-member group at a, for C5. -/
def regC5 : Registry := [("a", .group [fC5a, fC5b])]

/-- Fields for the C6 witness: a two-member group at g and a single at s. -/
def fC6a : Field := { id := 1 }

/-- Second C6 field. -/
def fC6b : Field := { id := 2 }

/-- Registry for the C6 witness. -/
def regC6 : Registry := [("g", .group [fC6a, fC6b]), ("s", .single fC6a)]

/-- Renaming field for the C7 witness: its validator still fails. -/
def fC7w : Field := { id := 5, vErrors := ["required"] }

/-- Form state for the C7 witness: the field registered at a[0] with an
outstanding error there and a value in the tree. -/
def stC7w : FormS :=
  { reg := [("a[0]", .single fC7w)],
    bag := [("a[0]", ["required"])],
    values := [("a[0]", .prim (.pstr ""))] }

/-! Helper lemmas about the association-list primitives. -/

section AssocLemmas

variable {α : Type}

@[simp] theorem lookupA_nil (q : PathStr) : lookupA ([] : List (PathStr × α)) q = none := rfl

@[simp] theorem lookupA_cons (k : PathStr) (v : α) (rest : List (PathStr × α)) (q : PathStr) :
    lookupA ((k, v) :: rest) q = if k = q then some v else lookupA rest q := rfl

theorem lookupA_setA_self (l : List (PathStr × α)) (k : PathStr) (v : α) :
    lookupA (setA l k v) k = some v := by
  induction l with
  | nil => simp [setA]
  | cons e rest ih =>
    obtain ⟨k', v'⟩ := e
    by_cases h : k' = k <;> simp [setA, h, ih]

theorem lookupA_setA_ne (l : List (PathStr × α)) (k q : PathStr) (v : α) (h : k ≠ q) :
    lookupA (setA l k v) q = lookupA l q := by
  induction l with
  | nil => simp [setA, h]
  | cons e rest ih =>
    obtain ⟨k', v'⟩ := e
    by_cases h' : k' = k
    · subst h'; simp [setA, h]
    · simp [setA, h', ih]

theorem delA_cons (k' : PathStr) (v' : α) (rest : List (PathStr × α)) (k : PathStr) :
    delA ((k', v') :: rest) k =
      if k' = k then delA rest k else (k', v') :: delA rest k := by
  by_cases h : k' = k <;> simp [delA, List.filter_cons, h]

theorem lookupA_delA_self (l : List (PathStr × α)) (k : PathStr) :
    lookupA (delA l k) k = none := by
  induction l with
  | nil => simp [delA]
  | cons e rest ih =>
    obtain ⟨k', v'⟩ := e
    by_cases h : k' = k
    · simp [delA_cons, h, ih]
    · simp [delA_cons, h, ih]

theorem lookupA_delA_ne (l : List (PathStr × α)) (k q : PathStr) (h : k ≠ q) :
    lookupA (delA l k) q = lookupA l q := by
  induction l with
  | nil => simp [delA]
  | cons e rest ih =>
    obtain ⟨k', v'⟩ := e
    by_cases h' : k' = k
    · subst h'; simp [delA_cons, h, ih]
    · by_cases h'' : k' = q <;> simp [delA_cons, h', h'', Ne.symm h, ih]

theorem mem_keys_of_lookupA_eq_some (l : List (PathStr × α)) (k : PathStr) (v : α)
    (h : lookupA l k = some v) : k ∈ l.map Prod.fst := by
  induction l with
  | nil => simp at h
  | cons e rest ih =>
    obtain ⟨k', v'⟩ := e
    by_cases h' : k' = k
    · subst h'; simp
    · simp only [lookupA_cons, h', if_false] at h
      simpa using Or.inr (ih h)

theorem lookupA_isSome_of_mem_keys (l : List (PathStr × α)) (k : PathStr)
    (h : k ∈ l.map Prod.fst) : (lookupA l k).isSome := by
  induction l with
  | nil => simp at h
  | cons e rest ih =>
    obtain ⟨k', v'⟩ := e
    by_cases h' : k' = k
    · simp [h']
    · simp only [List.map_cons, List.mem_cons] at h
      rcases h with h | h
      · exact absurd h.symm h'
      · simpa [h'] using ih h

theorem setA_setA (l : List (PathStr × α)) (k : PathStr) (a b : α) :
    setA (setA l k a) k b = setA l k b := by
  induction l with
  | nil => simp [setA]
  | cons e rest ih =>
    obtain ⟨k', v'⟩ := e
    by_cases h : k' = k <;> simp [setA, h, ih]

theorem setA_lookupA_self (l : List (PathStr × α)) (k : PathStr) (v : α)
    (h : lookupA l k = some v) : setA l k v = l := by
  induction l with
  | nil => simp at h
  | cons e rest ih =>
    obtain ⟨k', v'⟩ := e
    by_cases h' : k' = k
    · subst h'
      simp at h
      simp [setA, h]
    · simp only [lookupA_cons, h', if_false] at h
      simp [setA, h', ih h]

theorem lookupA_eq_none_of_not_mem_keys (l : List (PathStr × α)) (p : PathStr)
    (h : p ∉ l.map Prod.fst) : lookupA l p = none := by
  cases hl : lookupA l p with
  | none => rfl
  | some v => exact absurd (mem_keys_of_lookupA_eq_some l p v hl) h

theorem keys_setA (l : List (PathStr × α)) (k : PathStr) (v : α) :
    (setA l k v).map Prod.fst =
      if k ∈ l.map Prod.fst then l.map Prod.fst else l.map Prod.fst ++ [k] := by
  induction l with
  | nil => simp [setA]
  | cons e rest ih =>
    obtain ⟨k', v'⟩ := e
    by_cases h : k' = k
    · subst h; simp [setA]
    · have hne : ¬k = k' := fun hh => h hh.symm
      by_cases hm : k ∈ rest.map Prod.fst <;> simp [setA, h, ih, hm, hne]

theorem nodupKeys_setA (l : List (PathStr × α)) (k : PathStr) (v : α)
    (h : (l.map Prod.fst).Nodup) : ((setA l k v).map Prod.fst).Nodup := by
  rw [keys_setA]
  by_cases hm : k ∈ l.map Prod.fst
  · simpa [hm] using h
  · rw [if_neg hm, List.nodup_append]
    refine ⟨h, List.nodup_singleton k, ?_⟩
    intro a ha hb
    simp only [List.mem_singleton] at hb
    subst hb
    exact hm ha

theorem keys_delA (l : List (PathStr × α)) (k : PathStr) :
    (delA l k).map Prod.fst = (l.map Prod.fst).filter (fun s => s ≠ k) := by
  induction l with
  | nil => rfl
  | cons e rest ih =>
    obtain ⟨k', v'⟩ := e
    by_cases h : k' = k <;> simp [delA_cons, List.filter_cons, h, ih]

theorem nodupKeys_delA (l : List (PathStr × α)) (k : PathStr)
    (h : (l.map Prod.fst).Nodup) : ((delA l k).map Prod.fst).Nodup := by
  rw [keys_delA]
  exact h.filter _

end AssocLemmas

/-! Helper lemmas about the value tree and the error bag. -/

theorem vtEq_refl (t : ValueTree) : vtEq t t = true := by
  simp [vtEq, List.all_eq_true]

theorem vtGet_of_vtEq (a b : ValueTree) (h : vtEq a b = true) (p : PathStr) :
    vtGet a p = vtGet b p := by
  by_cases hm : p ∈ a.map Prod.fst ++ b.map Prod.fst
  · simpa using (List.all_eq_true.mp h) p hm
  · simp only [List.mem_append, not_or] at hm
    obtain ⟨ha, hb⟩ := hm
    have ha' : vtGet a p = none := by
      cases hga : vtGet a p with
      | none => rfl
      | some v => exact absurd (mem_keys_of_lookupA_eq_some a p v hga) ha
    have hb' : vtGet b p = none := by
      cases hgb : vtGet b p with
      | none => rfl
      | some v => exact absurd (mem_keys_of_lookupA_eq_some b p v hgb) hb
    rw [ha', hb']

theorem lookupA_setFieldErrorBag_self (bag : ErrorBag) (p : PathStr) (m : ErrMsg) :
    lookupA (setFieldErrorBag bag p m) p =
      if errMsgTruthy m then some (normalizeErrorItem m) else none := by
  by_cases h : errMsgTruthy m
  · simp [setFieldErrorBag, h, lookupA_setA_self]
  · simp [setFieldErrorBag, h, lookupA_delA_self]

theorem lookupA_setFieldErrorBag_ne (bag : ErrorBag) (p q : PathStr) (m : ErrMsg)
    (h : p ≠ q) :
    lookupA (setFieldErrorBag bag p m) q = lookupA bag q := by
  by_cases ht : errMsgTruthy m
  · simp [setFieldErrorBag, ht, lookupA_setA_ne _ _ _ _ h]
  · simp [setFieldErrorBag, ht, lookupA_delA_ne _ _ _ h]

theorem mem_keys_firstErrors (bag : ErrorBag) (p : PathStr)
    (h : p ∈ (firstErrors bag).map Prod.fst) : p ∈ bag.map Prod.fst := by
  induction bag with
  | nil => simp [firstErrors] at h
  | cons e rest ih =>
    obtain ⟨k, msgs⟩ := e
    cases msgs with
    | nil =>
      simp only [firstErrors, List.filterMap_cons, List.head?_nil, Option.map_none'] at h
      exact List.mem_cons_of_mem _ (ih h)
    | cons m ms =>
      simp only [firstErrors, List.filterMap_cons, List.head?_cons, Option.map_some'] at h
      simp only [List.map_cons, List.mem_cons] at h ⊢
      rcases h with h | h
      · exact Or.inl h
      · exact Or.inr (ih h)

theorem firstErrorAt_eq_head (bag : ErrorBag) (p : PathStr)
    (hnd : (bag.map Prod.fst).Nodup) :
    firstErrorAt bag p = (lookupA bag p).bind List.head? := by
  induction bag with
  | nil => rfl
  | cons e rest ih =>
    obtain ⟨k, msgs⟩ := e
    simp only [List.map_cons, List.nodup_cons] at hnd
    obtain ⟨hknot, hrest⟩ := hnd
    by_cases hk : k = p
    · subst hk
      cases msgs with
      | nil =>
        have hnone : lookupA (firstErrors rest) k = none := by
          apply lookupA_eq_none_of_not_mem_keys
          intro hm
          exact hknot (mem_keys_firstErrors rest k hm)
        simp only [firstErrorAt, firstErrors, List.filterMap_cons, List.head?_nil,
          Option.map_none', lookupA_cons, if_pos rfl, Option.some_bind]
        exact hnone
      | cons m ms =>
        simp [firstErrorAt, firstErrors, List.filterMap_cons]
    · cases msgs with
      | nil =>
        simpa only [firstErrorAt, firstErrors, List.filterMap_cons, List.head?_nil,
          Option.map_none', lookupA_cons, hk, if_false] using ih hrest
      | cons m ms =>
        simpa only [firstErrorAt, firstErrors, List.filterMap_cons, List.head?_cons,
          Option.map_some', lookupA_cons, hk, if_false] using ih hrest

theorem nodupKeys_setFieldErrorBag (bag : ErrorBag) (p : PathStr) (m : ErrMsg)
    (h : (bag.map Prod.fst).Nodup) :
    ((setFieldErrorBag bag p m).map Prod.fst).Nodup := by
  by_cases ht : errMsgTruthy m
  · simpa [setFieldErrorBag, ht] using nodupKeys_setA bag p _ h
  · simpa [setFieldErrorBag, ht] using nodupKeys_delA bag p h

/-! Helper lemmas about first-occurrence deduplication. -/

theorem mem_dedupFirstAux (l : List PathStr) (seen : List PathStr) (q : PathStr) :
    q ∈ dedupFirstAux seen l ↔ (q ∈ l ∧ q ∉ seen) := by
  induction l generalizing seen with
  | nil => simp [dedupFirstAux]
  | cons p ps ih =>
    by_cases hp : p ∈ seen
    · simp only [dedupFirstAux, if_pos hp, ih, List.mem_cons]
      constructor
      · rintro ⟨h1, h2⟩; exact ⟨Or.inr h1, h2⟩
      · rintro ⟨h1 | h1, h2⟩
        · subst h1; exact absurd hp h2
        · exact ⟨h1, h2⟩
    · simp only [dedupFirstAux, if_neg hp, List.mem_cons, ih]
      constructor
      · rintro (h1 | ⟨h1, h2⟩)
        · subst h1; exact ⟨Or.inl rfl, hp⟩
        · exact ⟨Or.inr h1, fun hs => h2 (Or.inr hs)⟩
      · rintro ⟨h1 | h1, h2⟩
        · exact Or.inl h1
        · by_cases hqp : q = p
          · exact Or.inl hqp
          · refine Or.inr ⟨h1, ?_⟩
            rintro (hc | hc)
            · exact hqp hc
            · exact h2 hc

theorem nodup_dedupFirstAux (l : List PathStr) (seen : List PathStr) :
    (dedupFirstAux seen l).Nodup := by
  induction l generalizing seen with
  | nil => simp [dedupFirstAux]
  | cons p ps ih =>
    by_cases hp : p ∈ seen
    · simpa [dedupFirstAux, hp] using ih seen
    · simp only [dedupFirstAux, if_neg hp, List.nodup_cons]
      refine ⟨?_, ih _⟩
      rw [mem_dedupFirstAux]
      rintro ⟨-, h2⟩
      exact h2 (List.mem_cons_self p seen)

theorem mem_dedupFirst (l : List PathStr) (q : PathStr) :
    q ∈ dedupFirst l ↔ q ∈ l := by
  simp [dedupFirst, mem_dedupFirstAux]

theorem nodup_dedupFirst (l : List PathStr) : (dedupFirst l).Nodup :=
  nodup_dedupFirstAux l []

/-! Claim theorems. -/

/-- C8 [corrected]: setFieldErrorBag deletes a path entry exactly when the
message is falsy (undefined or an empty string); a truthy message,
including an empty message array, stores its normalized list, so an empty
array leaves an empty entry in the bag rather than removing it, and the
derived first-error map merely omits that entry.  Other paths are never
touched. -/
theorem vv_C8 (bag : ErrorBag) (p : PathStr) (m : ErrMsg) :
    ((m = .undef ∨ m = .str "") → lookupA (setFieldErrorBag bag p m) p = none)
    ∧ lookupA (setFieldErrorBag bag p m) p =
        (if errMsgTruthy m then some (normalizeErrorItem m) else none)
    ∧ (∀ q, q ≠ p → lookupA (setFieldErrorBag bag p m) q = lookupA bag q)
    ∧ ((bag.map Prod.fst).Nodup →
        lookupA (setFieldErrorBag bag p (.list [])) p = some [] ∧
        firstErrorAt (setFieldErrorBag bag p (.list [])) p = none) := by
  refine ⟨?_, lookupA_setFieldErrorBag_self bag p m, ?_, ?_⟩
  · rintro (rfl | rfl) <;>
      simp [lookupA_setFieldErrorBag_self, errMsgTruthy]
  · intro q hq
    exact lookupA_setFieldErrorBag_ne bag p q m (Ne.symm hq)
  · intro hnd
    have hlook : lookupA (setFieldErrorBag bag p (.list [])) p = some [] := by
      simpa [errMsgTruthy, normalizeErrorItem] using
        lookupA_setFieldErrorBag_self bag p (.list [])
    refine ⟨hlook, ?_⟩
    rw [firstErrorAt_eq_head _ _ (nodupKeys_setFieldErrorBag bag p _ hnd), hlook]
    rfl

/-- C8 counterexample: the claim says that setting a path's messages to an
empty value, including an empty list, removes the entry; setting the empty
message array on an empty bag instead leaves an empty entry present. -/
theorem vv_C8_counterexample :
    ¬ (∀ (bag : ErrorBag) (p : PathStr) (m : ErrMsg),
        normalizeErrorItem m = [] → lookupA (setFieldErrorBag bag p m) p = none) := by
  intro h
  exact absurd (h [] "a" (.list []) rfl) (by decide)

/-- C8 witness: concrete instantiation of the corrected statement at a bag
holding one message at a. -/
theorem vv_C8_witness :
    lookupA (setFieldErrorBag [("a", ["x"])] "a" (.list [])) "a" = some [] ∧
    firstErrorAt (setFieldErrorBag [("a", ["x"])] "a" (.list [])) "a" = none :=
  (vv_C8 [("a", ["x"])] "a" (.list [])).2.2.2 (by decide)

theorem setErrorBag_foldl_lookup (fields : List (PathStr × ErrMsg)) (acc : ErrorBag)
    (p : PathStr) (hnd : (fields.map Prod.fst).Nodup) :
    lookupA
      (fields.foldl
        (fun acc e => if errMsgTruthy e.2 then setA acc e.1 (normalizeErrorItem e.2) else acc)
        acc) p =
      match lookupA fields p with
      | some m => if errMsgTruthy m then some (normalizeErrorItem m) else lookupA acc p
      | none => lookupA acc p := by
  induction fields generalizing acc with
  | nil => simp
  | cons e fs ih =>
    obtain ⟨k, m⟩ := e
    simp only [List.map_cons, List.nodup_cons] at hnd
    obtain ⟨hknot, hrest⟩ := hnd
    by_cases hk : k = p
    · subst hk
      have hnone : lookupA fs k = none :=
        lookupA_eq_none_of_not_mem_keys fs k hknot
      simp only [List.foldl_cons, lookupA_cons, if_pos rfl]
      rw [ih _ hrest, hnone]
      by_cases ht : errMsgTruthy m
      · simp [ht, lookupA_setA_self]
      · simp [ht]
    · simp only [List.foldl_cons, lookupA_cons, hk, if_false]
      rw [ih _ hrest]
      by_cases ht : errMsgTruthy m
      · simp only [ht, if_true]
        cases hfs : lookupA fs p <;>
          simp [lookupA_setA_ne _ _ _ _ hk]
      · simp [ht]

/-- C9 [corrected]: setErrorBag discards the previous bag entirely and
rebuilds it from the argument object alone: a path maps to the normalized
messages of its truthy entry (an empty message array therefore yields an
empty entry rather than no entry), and every path with a falsy entry or
not mentioned at all carries no errors afterwards, whatever the bag held
before; setFieldErrorBag by contrast leaves every other path untouched. -/
theorem vv_C9 (fields : List (PathStr × ErrMsg)) (bag : ErrorBag)
    (hnd : (fields.map Prod.fst).Nodup) :
    (∀ p, lookupA (setErrorBag fields) p =
        match lookupA fields p with
        | some m => if errMsgTruthy m then some (normalizeErrorItem m) else none
        | none => none)
    ∧ (∀ p, p ∉ fields.map Prod.fst → lookupA (setErrorBag fields) p = none)
    ∧ (∀ p m q, q ≠ p → lookupA (setFieldErrorBag bag p m) q = lookupA bag q) := by
  have hmain : ∀ p, lookupA (setErrorBag fields) p =
      match lookupA fields p with
      | some m => if errMsgTruthy m then some (normalizeErrorItem m) else none
      | none => none := by
    intro p
    have := setErrorBag_foldl_lookup fields [] p hnd
    rw [setErrorBag, this]
    cases lookupA fields p <;> simp
  refine ⟨hmain, ?_, ?_⟩
  · intro p hp
    rw [hmain p, lookupA_eq_none_of_not_mem_keys fields p hp]
  · intro p m q hq
    exact lookupA_setFieldErrorBag_ne bag p q m (Ne.symm hq)

/-- C9 counterexample: the claim says the bag afterwards contains exactly
the normalized non-empty entries of the argument; an entry whose message
is an empty array is kept as an empty bag entry instead of being dropped. -/
theorem vv_C9_counterexample :
    ¬ (∀ (fields : List (PathStr × ErrMsg)) (p : PathStr) (l : List String),
        lookupA (setErrorBag fields) p = some l → l ≠ []) := by
  intro h
  exact h [("a", .list [])] "a" [] (by decide) rfl

/-- C9 witness: concrete instantiation of the corrected statement — a
replacement call wipes a previously held error at a path the argument does
not mention. -/
theorem vv_C9_witness :
    lookupA (setErrorBag [("b", ErrMsg.str "new")]) "a" = none :=
  (vv_C9 [("b", ErrMsg.str "new")] [("a", ["old"])] (by decide)).2.1 "a" (by decide)

/-- C10 [confirmed]: with no registered fields the aggregate flags are
touched = false, pending = false and valid = true (the every-merge over the
empty field list is vacuously true), so the exposed form-level valid is
true exactly when the first-error map derived from the error bag is
empty. -/
theorem vv_C10 (bag : ErrorBag) (vt iv : ValueTree) :
    calculateFlags ([] : Registry) = { touched := false, pending := false, valid := true }
    ∧ (useFormMetaModel [] bag vt iv).touched = false
    ∧ (useFormMetaModel [] bag vt iv).pending = false
    ∧ ((useFormMetaModel [] bag vt iv).valid = true ↔ firstErrors bag = []) := by
  refine ⟨rfl, rfl, rfl, ?_⟩
  show (true && (firstErrors bag).isEmpty) = true ↔ firstErrors bag = []
  cases h : firstErrors bag <;> simp [h]

/-- C1 [corrected]: the aggregated dirty flag compares the live value tree
against the original initial-values snapshot, not the current one: useForm
passes originalInitialValues into useFormMeta, whose isDirty negates the
deep equality of the live values with that snapshot.  Consequently,
mutating a registered non-checkbox field and then restoring its
original-initial value brings dirty back to false. -/
theorem vv_C1 :
    (∀ st : FormS,
      ((formMetaOf st).dirty = true ↔ ¬vtEq st.values st.originalInitialValues = true))
    ∧ (∀ (vt : ValueTree) (f : Field) (p : PathStr) (v v₀ : Val),
        f.type ≠ some "checkbox" → vtGet vt p = some v₀ →
        (formMetaOf (setFieldValue (setFieldValue
          { initFormState vt with reg := insertFieldAtPath [] f p } p v) p v₀)).dirty
          = false) := by
  constructor
  · intro st
    simp [formMetaOf, useFormMetaModel]
  · intro vt f p v v₀ hcb hget
    have hreg : insertFieldAtPath [] f p = [(p, FieldEntry.single f)] := rfl
    have hlook : lookupA [(p, FieldEntry.single f)] p = some (.single f) := by
      simp [lookupA]
    have h1 : setFieldValue
        { initFormState vt with reg := insertFieldAtPath [] f p } p v =
        { initFormState vt with reg := [(p, FieldEntry.single f)],
                                 values := vtSet vt p v } := by
      rw [setFieldValue]
      simp only [hreg, hlook, initFormState]
      simp [hcb]
    have h2 : setFieldValue
        { initFormState vt with reg := [(p, FieldEntry.single f)],
                                 values := vtSet vt p v } p v₀ =
        { initFormState vt with reg := [(p, FieldEntry.single f)],
                                 values := vtSet (vtSet vt p v) p v₀ } := by
      rw [setFieldValue]
      simp only [hlook, initFormState]
      simp [hcb]
    rw [h1, h2]
    have hvals : vtSet (vtSet vt p v) p v₀ = vt := by
      simp only [vtSet]
      rw [setA_setA]
      exact setA_lookupA_self vt p v₀ hget
    rw [hvals]
    simp [formMetaOf, useFormMetaModel, initFormState, vtEq_refl]

/-- C1 counterexample: from initial values a = 0, staging a late initial
value a = 1 (a conditionally mounted field) produces a state whose live
values deeply equal the current snapshot, yet dirty is true, because the
code compares against the original snapshot — refuting the claimed
equivalence of dirty with inequality against the current snapshot. -/
theorem vv_C1_counterexample :
    ¬ ((formMetaOf stC1cex).dirty = true ↔ ¬vtEq stC1cex.values stC1cex.initialValues = true) := by
  decide

/-- C1 witness: concrete run of the corrected restore scenario — set the
field at a to 5, set it back to 0, and dirty is false again. -/
theorem vv_C1_witness :
    (formMetaOf (setFieldValue (setFieldValue
      { initFormState vtC1w with reg := insertFieldAtPath [] fC1w "a" }
      "a" (.prim (.pnum 5))) "a" (.prim (.pnum 0)))).dirty = false :=
  vv_C1.2 vtC1w fC1w "a" (.prim (.pnum 5)) (.prim (.pnum 0)) (by decide) (by decide)

/-- C5 [corrected]: validateField on an unregistered path warns and
resolves to a trivially-valid result without invoking any validator; on a
single field it validates that field; on a group it invokes validation on
every member — not only the first — while handing back the first member's
result. -/
theorem vv_C5 (reg : Registry) (p : PathStr) :
    (lookupA reg p = none →
      validateFieldModel reg p = (some { valid := true, errors := [] }, [], true))
    ∧ (∀ f, lookupA reg p = some (.single f) →
      validateFieldModel reg p = (some (fieldValidateResult f), [f.id], false))
    ∧ (∀ fs, lookupA reg p = some (.group fs) →
      (validateFieldModel reg p).1 = (fs.map fieldValidateResult).head?
      ∧ (validateFieldModel reg p).2.1 = fs.map (·.id)
      ∧ (validateFieldModel reg p).2.2 = false) := by
  refine ⟨?_, ?_, ?_⟩
  · intro h
    simp [validateFieldModel, h]
  · intro f h
    simp [validateFieldModel, h]
  · intro fs h
    simp [validateFieldModel, h]

/-- C5 counterexample: the claim says a group validates only its first
member; on a registered two-member group the ids of the fields whose
validate() ran are both members', not just the first's. -/
theorem vv_C5_counterexample :
    ¬ (∀ (reg : Registry) (p : PathStr) (fs : List Field),
        lookupA reg p = some (.group fs) →
        (validateFieldModel reg p).2.1 = (fs.map (·.id)).take 1) := by
  intro h
  have hc := h regC5 "a" [fC5a, fC5b] (by decide)
  revert hc
  decide

/-- C5 witness: on the concrete two-member group the returned result is
the first member's and both members were validated. -/
theorem vv_C5_witness :
    (validateFieldModel regC5 "a").1 = some (fieldValidateResult fC5a) ∧
    (validateFieldModel regC5 "a").2.1 = [1, 2] := by
  obtain ⟨h1, h2, -⟩ := (vv_C5 regC5 "a").2.2 [fC5a, fC5b] (by decide)
  refine ⟨?_, ?_⟩
  · rw [h1]; rfl
  · rw [h2]; rfl

/-- C6 [confirmed]: a path entry that is a group never turns into a
single-field entry under any insert or remove (it can only stay a group or
be deleted), and removing a field by id deletes the path entry exactly
when the entry was the single field with that id or when dropping that id
empties the group's member sequence. -/
theorem vv_C6 (reg : Registry) (f : Field) (p q : PathStr) (fs : List Field) :
    (lookupA reg q = some (.group fs) → fs ≠ [] →
      (∀ g, lookupA (insertFieldAtPath reg f p) q ≠ some (.single g)) ∧
      (∀ g, lookupA (removeFieldFromPath reg f p) q ≠ some (.single g)))
    ∧ (lookupA reg p ≠ none →
      (lookupA (removeFieldFromPath reg f p) p = none ↔
        (∃ g, lookupA reg p = some (.single g) ∧ g.id = f.id) ∨
        (∃ gs, lookupA reg p = some (.group gs) ∧ gs.any (fun g => g.id = f.id) ∧
          removeById gs f.id = []))) := by
  constructor
  · intro hq hfs
    constructor
    · intro g
      by_cases hpq : p = q
      · subst hpq
        simp [insertFieldAtPath, hq, lookupA_setA_self]
      · cases hl : lookupA reg p with
        | none => simp [insertFieldAtPath, hl, lookupA_setA_ne _ _ _ _ hpq, hq]
        | some e =>
          cases e <;>
            simp [insertFieldAtPath, hl, lookupA_setA_ne _ _ _ _ hpq, hq]
    · intro g
      by_cases hpq : p = q
      · subst hpq
        by_cases hany : fs.any (fun g => g.id = f.id)
        · by_cases hemp : removeById fs f.id = []
          · simp [removeFieldFromPath, hq, hany, hemp, lookupA_delA_self]
          · simp [removeFieldFromPath, hq, hany, hemp, lookupA_setA_self]
        · simp [removeFieldFromPath, hq, hany]
      · cases hl : lookupA reg p with
        | none => simp [removeFieldFromPath, hl, hq]
        | some e =>
          cases e with
          | single g' =>
            by_cases hid : g'.id = f.id
            · simp [removeFieldFromPath, hl, hid, lookupA_delA_ne _ _ _ hpq, hq]
            · simp [removeFieldFromPath, hl, hid, hq]
          | group gs =>
            by_cases hany : gs.any (fun g => g.id = f.id)
            · by_cases hemp : removeById gs f.id = []
              · simp [removeFieldFromPath, hl, hany, hemp, lookupA_delA_ne _ _ _ hpq, hq]
              · simp [removeFieldFromPath, hl, hany, hemp, lookupA_setA_ne _ _ _ _ hpq, hq]
            · simp [removeFieldFromPath, hl, hany, hq]
  · intro hne
    cases hl : lookupA reg p with
    | none => exact absurd hl hne
    | some e =>
      cases e with
      | single g =>
        by_cases hid : g.id = f.id
        · simp only [removeFieldFromPath, hl, hid, if_pos rfl]
          simp [lookupA_delA_self, hl, hid]
        · simp only [removeFieldFromPath, hl, if_neg hid]
          simp [hl, hid]
      | group gs =>
        by_cases hany : gs.any (fun g => g.id = f.id)
        · by_cases hemp : removeById gs f.id = []
          · have hres : removeFieldFromPath reg f p = delA reg p := by
              simp [removeFieldFromPath, hl, hany, hemp]
            rw [hres, lookupA_delA_self]
            apply iff_of_true rfl
            exact Or.inr ⟨gs, rfl, hany, hemp⟩
          · have hres : removeFieldFromPath reg f p =
                setA reg p (.group (removeById gs f.id)) := by
              simp [removeFieldFromPath, hl, hany, hemp]
            rw [hres, lookupA_setA_self]
            apply iff_of_false
            · simp
            · rintro (⟨g, hg, -⟩ | ⟨gs', hg, -, hemp'⟩)
              · simp at hg
              · simp only [Option.some.injEq, FieldEntry.group.injEq] at hg
                subst hg
                exact hemp hemp'
        · have hres : removeFieldFromPath reg f p = reg := by
            simp [removeFieldFromPath, hl, hany]
          rw [hres, hl]
          apply iff_of_false
          · simp
          · rintro (⟨g, hg, -⟩ | ⟨gs', hg, hany', -⟩)
            · simp at hg
            · simp only [Option.some.injEq, FieldEntry.group.injEq] at hg
              subst hg
              exact absurd hany' hany

/-- C6 witness: concrete registry with a two-member group at g and a
single entry at s — removing one group member keeps g a group, and the
deletion characterization holds at s. -/
theorem vv_C6_witness :
    (∀ g, lookupA (removeFieldFromPath regC6 fC6a "g") "g" ≠ some (.single g)) ∧
    (lookupA (removeFieldFromPath regC6 fC6a "s") "s" = none ↔
      (∃ g, lookupA regC6 "s" = some (.single g) ∧ g.id = fC6a.id) ∨
      (∃ gs, lookupA regC6 "s" = some (.group gs) ∧ gs.any (fun g => g.id = fC6a.id) ∧
        removeById gs fC6a.id = [])) :=
  ⟨((vv_C6 regC6 fC6a "g" "g" [fC6a, fC6b]).1 (by decide) (by decide)).2,
   (vv_C6 regC6 fC6a "s" "g" [fC6a, fC6b]).2 (by decide)⟩

theorem foldl_reconcile_valid (mode : SchemaValidationMode) (res : SchemaResult)
    (paths : List PathStr) (acc : FormS × FormVRes) :
    ((paths.foldl (reconcileStep mode res) acc).2).valid = acc.2.valid := by
  induction paths generalizing acc with
  | nil => rfl
  | cons p ps ih =>
    rw [List.foldl_cons, ih]
    cases hl : lookupA acc.1.reg p with
    | none => simp [reconcileStep, hl]
    | some e =>
      simp only [reconcileStep, hl]
      split
      · rfl
      · split <;> rfl

theorem validateModel_valid (st : FormS) (res : SchemaResult) :
    (validateModel st res).2.valid = res.valid := by
  simp [validateModel, validateSchemaModel, foldl_reconcile_valid]

/-- C4 [confirmed]: whatever the outcome of a submission handler produced
by handleSubmit — validation success, validation failure, or a failure
thrown by a user callback — the final then-handlers reset isSubmitting to
false, and a failure thrown by the success callback is rethrown to the
caller instead of being swallowed. -/
theorem vv_C4 {R : Type} (st : FormS) (res : SchemaResult) (hasFn : Bool)
    (fnOut : CbRes R) (hasOnInvalid : Bool) (invOut : CbRes Unit) :
    (submissionHandler st res hasFn fnOut hasOnInvalid invOut).1.isSubmitting = false
    ∧ (∀ e, res.valid = true → hasFn = true → fnOut = .thrown e →
        (submissionHandler st res hasFn fnOut hasOnInvalid invOut).2 = .error e)
    ∧ (∀ e, res.valid = false → hasOnInvalid = true → invOut = .thrown e →
        (submissionHandler st res hasFn fnOut hasOnInvalid invOut).2 = .error e) := by
  refine ⟨?_, ?_, ?_⟩
  · simp only [submissionHandler]
    split <;> rfl
  · intro e hvalid hfn hthrown
    simp [submissionHandler, validateModel_valid, hvalid, hfn, hthrown]
  · intro e hvalid hinv hthrown
    simp [submissionHandler, validateModel_valid, hvalid, hinv, hthrown]

/-- C4 witness: a submission over an empty form whose success callback
throws ends with isSubmitting false and the failure rethrown. -/
theorem vv_C4_witness :
    (submissionHandler ({} : FormS) resEmpty true
      (CbRes.thrown "boom" : CbRes Nat) false (.ret ())).1.isSubmitting = false
    ∧ (submissionHandler ({} : FormS) resEmpty true
      (CbRes.thrown "boom" : CbRes Nat) false (.ret ())).2 = .error "boom" := by
  obtain ⟨h1, h2, -⟩ :=
    vv_C4 ({} : FormS) resEmpty true (CbRes.thrown "boom" : CbRes Nat) false (.ret ())
  exact ⟨h1, h2 "boom" rfl rfl rfl⟩

theorem insertFieldAtPath_lookup_other (r : Registry) (f : Field) (pth q : PathStr)
    (h : pth ≠ q) :
    lookupA (insertFieldAtPath r f pth) q = lookupA r q := by
  cases hl : lookupA r pth with
  | none => simp [insertFieldAtPath, hl, lookupA_setA_ne _ _ _ _ h]
  | some e => cases e <;> simp [insertFieldAtPath, hl, lookupA_setA_ne _ _ _ _ h]

theorem insertFieldAtPath_lookup_self (r : Registry) (f : Field) (pth : PathStr) :
    ∃ e, lookupA (insertFieldAtPath r f pth) pth = some e ∧
      (entryFieldsList e).getLast? = some f := by
  cases hl : lookupA r pth with
  | none =>
    refine ⟨.single f, by simp [insertFieldAtPath, hl, lookupA_setA_self], ?_⟩
    simp [entryFieldsList]
  | some e =>
    cases e with
    | single g =>
      refine ⟨.group [g, f], by simp [insertFieldAtPath, hl, lookupA_setA_self], ?_⟩
      simp [entryFieldsList]
    | group gs =>
      refine ⟨.group (gs ++ [f]), by simp [insertFieldAtPath, hl, lookupA_setA_self], ?_⟩
      simp [entryFieldsList]

theorem getLast?_map_ids (l : List Field) :
    (l.map (·.id)).getLast? = l.getLast?.map (·.id) := by
  induction l with
  | nil => rfl
  | cons a as ih =>
    cases as with
    | nil => simp
    | cons b bs => simpa using ih

theorem runFieldValidationAt_eq_foldl (s : FormS) (p : PathStr) (e : FieldEntry)
    (h : lookupA s.reg p = some e) :
    runFieldValidationAt s p = (entryFieldsList e).foldl (runFieldValidationStep p) s := by
  simp [runFieldValidationAt, h]

theorem foldl_runStep_values (p : PathStr) (fs : List Field) (s : FormS) :
    (fs.foldl (runFieldValidationStep p) s).values = s.values := by
  induction fs generalizing s with
  | nil => rfl
  | cons a as ih =>
    rw [List.foldl_cons, ih]
    rfl

theorem runFieldValidationStep_other (p q : PathStr) (h : q ≠ p) (s : FormS) (f : Field) :
    lookupA (runFieldValidationStep p s f).reg q = lookupA s.reg q ∧
    lookupA (runFieldValidationStep p s f).bag q = lookupA s.bag q := by
  constructor
  · simp only [runFieldValidationStep]
    cases hl : lookupA s.reg p with
    | none => rfl
    | some e => exact lookupA_setA_ne _ _ _ _ (Ne.symm h)
  · show lookupA (setFieldErrorBag s.bag p (.list f.vErrors)) q = lookupA s.bag q
    exact lookupA_setFieldErrorBag_ne s.bag p q (.list f.vErrors) (Ne.symm h)

theorem foldl_runStep_other (p q : PathStr) (h : q ≠ p) (fs : List Field) (s : FormS) :
    lookupA ((fs.foldl (runFieldValidationStep p) s)).reg q = lookupA s.reg q ∧
    lookupA ((fs.foldl (runFieldValidationStep p) s)).bag q = lookupA s.bag q := by
  induction fs generalizing s with
  | nil => exact ⟨rfl, rfl⟩
  | cons a as ih =>
    rw [List.foldl_cons]
    obtain ⟨h1, h2⟩ := ih (runFieldValidationStep p s a)
    obtain ⟨h1', h2'⟩ := runFieldValidationStep_other p q h s a
    exact ⟨h1.trans h1', h2.trans h2'⟩

theorem entryIds_updateFieldById (e : FieldEntry) (i : Nat) :
    entryIds (updateFieldById e i fun g => { g with errors := g.vErrors, validated := true }) =
      entryIds e := by
  cases e with
  | single g => by_cases h : g.id = i <;> simp [updateFieldById, entryIds, entryFieldsList, h]
  | group gs =>
    simp only [updateFieldById, entryIds, entryFieldsList, List.map_map]
    apply List.map_congr_left
    intro a _
    by_cases h : a.id = i <;> simp [h]

theorem runFieldValidationStep_ids (p : PathStr) (s : FormS) (f : Field) :
    (lookupA (runFieldValidationStep p s f).reg p).map entryIds =
      (lookupA s.reg p).map entryIds := by
  simp only [runFieldValidationStep]
  cases hl : lookupA s.reg p with
  | none => simp [hl]
  | some e => simp [lookupA_setA_self, entryIds_updateFieldById]

theorem foldl_runStep_ids (p : PathStr) (fs : List Field) (s : FormS) :
    (lookupA ((fs.foldl (runFieldValidationStep p) s)).reg p).map entryIds =
      (lookupA s.reg p).map entryIds := by
  induction fs generalizing s with
  | nil => rfl
  | cons a as ih =>
    rw [List.foldl_cons]
    exact (ih _).trans (runFieldValidationStep_ids p s a)

theorem foldl_runStep_bag_last (p : PathStr) (fs : List Field) (g : Field) (s : FormS) :
    fs.getLast? = some g →
    lookupA ((fs.foldl (runFieldValidationStep p) s)).bag p = some g.vErrors := by
  induction fs generalizing s with
  | nil => intro hg; simp at hg
  | cons a as ih =>
    intro hg
    cases as with
    | nil =>
      simp only [List.getLast?_singleton, Option.some.injEq] at hg
      subst hg
      rw [List.foldl_cons, List.foldl_nil]
      show lookupA (setFieldErrorBag s.bag p (.list a.vErrors)) p = some a.vErrors
      simp [lookupA_setFieldErrorBag_self, errMsgTruthy, normalizeErrorItem]
    | cons b bs =>
      rw [List.getLast?_cons_cons] at hg
      rw [List.foldl_cons]
      exact ih (runFieldValidationStep p s a) hg

theorem foldl_runStep_bag_nodup (p : PathStr) (fs : List Field) (s : FormS)
    (h : (s.bag.map Prod.fst).Nodup) :
    (((fs.foldl (runFieldValidationStep p) s)).bag.map Prod.fst).Nodup := by
  induction fs generalizing s with
  | nil => exact h
  | cons a as ih =>
    rw [List.foldl_cons]
    apply ih
    show ((setFieldErrorBag s.bag p (.list a.vErrors)).map Prod.fst).Nodup
    exact nodupKeys_setFieldErrorBag s.bag p (.list a.vErrors) h

/-- C7 [confirmed]: for every rename of a field from oldPath to a distinct
newPath, over any registry shape: the final registry at oldPath is exactly
the post-removal one (the field is removed from oldPath and nothing else
touches it), the field is inserted as the last member at newPath; when
errors.value at either path is truthy beforehand (a present, non-empty
first-error string, matching the JS truthiness test of the source), the
old path's error-bag entry is cleared and the new path re-validated so the
renaming field's validator messages land at newPath (a first error is
present there whenever the validator still fails) while oldPath is
error-free; when neither path shows a truthy error the bag is untouched;
and after the deferred settling step the old path's value-tree entry is
unset exactly when no field remains registered there, the live values
being untouched otherwise. -/
theorem vv_C7 (st : FormS) (f : Field) (oldPath newPath : PathStr)
    (hne : oldPath ≠ newPath)
    (hnd : (st.bag.map Prod.fst).Nodup) :
    lookupA (renameHandler st f oldPath newPath).reg oldPath =
      lookupA (removeFieldFromPath st.reg f oldPath) oldPath
    ∧ (∃ e, lookupA (renameHandler st f oldPath newPath).reg newPath = some e
        ∧ (entryIds e).getLast? = some f.id)
    ∧ ((strOptTruthy (firstErrorAt st.bag oldPath)
          || strOptTruthy (firstErrorAt st.bag newPath)) = true →
        lookupA (renameHandler st f oldPath newPath).bag oldPath = none
        ∧ lookupA (renameHandler st f oldPath newPath).bag newPath = some f.vErrors
        ∧ (f.vErrors ≠ [] →
            (firstErrorAt (renameHandler st f oldPath newPath).bag newPath).isSome = true))
    ∧ ((strOptTruthy (firstErrorAt st.bag oldPath)
          || strOptTruthy (firstErrorAt st.bag newPath)) = false →
        (renameHandler st f oldPath newPath).bag = st.bag)
    ∧ (lookupA (renameHandler st f oldPath newPath).reg oldPath = none →
        vtGet (renameHandler st f oldPath newPath).values oldPath = none)
    ∧ ((lookupA (renameHandler st f oldPath newPath).reg oldPath).isSome = true →
        (renameHandler st f oldPath newPath).values = st.values) := by
  have hnewold : newPath ≠ oldPath := Ne.symm hne
  obtain ⟨e₂, he₂, hlast⟩ :=
    insertFieldAtPath_lookup_self (removeFieldFromPath st.reg f oldPath) f newPath
  have hbagE : setFieldErrorBag st.bag oldPath .undef = delA st.bag oldPath := by
    simp [setFieldErrorBag, errMsgTruthy]
  have hidslast : (entryIds e₂).getLast? = some f.id := by
    show ((entryFieldsList e₂).map (·.id)).getLast? = some f.id
    rw [getLast?_map_ids, hlast]
    rfl
  cases hc : (strOptTruthy (firstErrorAt st.bag oldPath)
      || strOptTruthy (firstErrorAt st.bag newPath)) with
  | true =>
    have hfold := runFieldValidationAt_eq_foldl
      { st with reg := insertFieldAtPath (removeFieldFromPath st.reg f oldPath) f newPath,
                bag := delA st.bag oldPath } newPath e₂ he₂
    simp only [renameHandler, hbagE, hc, if_true, hfold]
    set STE : FormS :=
      { st with reg := insertFieldAtPath (removeFieldFromPath st.reg f oldPath) f newPath,
                bag := delA st.bag oldPath } with hSTE
    set FOLD : FormS := (entryFieldsList e₂).foldl (runFieldValidationStep newPath) STE
      with hFOLD
    have hSTEregOld : lookupA STE.reg oldPath =
        lookupA (removeFieldFromPath st.reg f oldPath) oldPath :=
      insertFieldAtPath_lookup_other _ f newPath oldPath hnewold
    have hSTEregNew : lookupA STE.reg newPath = some e₂ := he₂
    have hro : lookupA FOLD.reg oldPath =
        lookupA (removeFieldFromPath st.reg f oldPath) oldPath :=
      ((foldl_runStep_other newPath oldPath hne (entryFieldsList e₂) STE).1).trans hSTEregOld
    have hbo : lookupA FOLD.bag oldPath = none :=
      ((foldl_runStep_other newPath oldPath hne (entryFieldsList e₂) STE).2).trans
        (lookupA_delA_self st.bag oldPath)
    have hbn : lookupA FOLD.bag newPath = some f.vErrors :=
      foldl_runStep_bag_last newPath (entryFieldsList e₂) f STE hlast
    have hids : (lookupA FOLD.reg newPath).map entryIds = some (entryIds e₂) := by
      rw [hFOLD, foldl_runStep_ids, hSTEregNew]
      rfl
    have hnodup3 : (FOLD.bag.map Prod.fst).Nodup :=
      foldl_runStep_bag_nodup newPath (entryFieldsList e₂) STE
        (nodupKeys_delA st.bag oldPath hnd)
    have hvals : FOLD.values = st.values :=
      foldl_runStep_values newPath (entryFieldsList e₂) STE
    have hnewconc : ∃ e, lookupA FOLD.reg newPath = some e ∧
        (entryIds e).getLast? = some f.id := by
      cases hrn : lookupA FOLD.reg newPath with
      | none => rw [hrn] at hids; simp at hids
      | some e' =>
        rw [hrn] at hids
        simp only [Option.map_some', Option.some.injEq] at hids
        exact ⟨e', rfl, hids ▸ hidslast⟩
    have herr : f.vErrors ≠ [] → (firstErrorAt FOLD.bag newPath).isSome = true := by
      intro hv
      rw [firstErrorAt_eq_head _ _ hnodup3, hbn]
      cases hv' : f.vErrors with
      | nil => exact absurd hv' hv
      | cons m ms => rfl
    rw [hro]
    cases hfin : (lookupA (removeFieldFromPath st.reg f oldPath) oldPath).isSome with
    | true =>
      simp only [if_true]
      refine ⟨hro, hnewconc, fun _ => ⟨hbo, hbn, herr⟩, ?_, ?_, ?_⟩
      · intro hcf
        exact absurd hcf (by decide)
      · intro h5
        rw [hro] at h5
        rw [h5] at hfin
        simp at hfin
      · intro _
        exact hvals
    | false =>
      simp only [Bool.false_eq_true, if_false]
      refine ⟨hro, hnewconc, fun _ => ⟨hbo, hbn, herr⟩, ?_, ?_, ?_⟩
      · intro hcf
        exact absurd hcf (by decide)
      · intro _
        show lookupA (delA FOLD.values oldPath) oldPath = none
        exact lookupA_delA_self _ _
      · intro h6
        rw [hro] at h6
        rw [h6] at hfin
        exact absurd hfin (by decide)
  | false =>
    simp only [renameHandler, hc, Bool.false_eq_true, if_false]
    have hro' : lookupA (insertFieldAtPath (removeFieldFromPath st.reg f oldPath) f
        newPath) oldPath = lookupA (removeFieldFromPath st.reg f oldPath) oldPath :=
      insertFieldAtPath_lookup_other _ f newPath oldPath hnewold
    rw [hro']
    cases hfin : (lookupA (removeFieldFromPath st.reg f oldPath) oldPath).isSome with
    | true =>
      simp only [if_true]
      refine ⟨hro', ⟨e₂, he₂, hidslast⟩, ?_, fun _ => trivial, ?_, fun _ => trivial⟩
      · intro hct
        exact absurd hct (by decide)
      · intro h5
        rw [hro'] at h5
        rw [h5] at hfin
        simp at hfin
    | false =>
      simp only [Bool.false_eq_true, if_false]
      refine ⟨hro', ⟨e₂, he₂, hidslast⟩, ?_, fun _ => trivial, ?_, ?_⟩
      · intro hct
        exact absurd hct (by decide)
      · intro _
        show lookupA (delA st.values oldPath) oldPath = none
        exact lookupA_delA_self _ _
      · intro h6
        rw [hro'] at h6
        rw [h6] at hfin
        exact absurd hfin (by decide)

/-- C7 witness: the spec's index-shift scenario — renaming from a[0] to
a[1] while a[0] held the truthy error "required" clears a[0], reports the
validator's error at a[1], and unsets a[0] in the value tree once no field
remains there. -/
theorem vv_C7_witness :
    lookupA (renameHandler stC7w fC7w "a[0]" "a[1]").bag "a[0]" = none
    ∧ lookupA (renameHandler stC7w fC7w "a[0]" "a[1]").bag "a[1]" = some ["required"]
    ∧ vtGet (renameHandler stC7w fC7w "a[0]" "a[1]").values "a[0]" = none := by
  obtain ⟨h1, -, h3, -, h5, -⟩ :=
    vv_C7 stC7w fC7w "a[0]" "a[1]" (by decide) (by decide)
  obtain ⟨hb1, hb2, -⟩ := h3 (by decide)
  refine ⟨hb1, hb2, h5 ?_⟩
  rw [h1]
  decide

theorem reconcileStep_other (mode : SchemaValidationMode) (res : SchemaResult)
    (acc : FormS × FormVRes) (p q : PathStr) (hq : q ≠ p) :
    lookupA (reconcileStep mode res acc p).1.reg q = lookupA acc.1.reg q ∧
    lookupA (reconcileStep mode res acc p).1.bag q = lookupA acc.1.bag q := by
  cases hl : lookupA acc.1.reg p with
  | none =>
    refine ⟨?_, ?_⟩
    · simp only [reconcileStep, hl]
    · simp only [reconcileStep, hl]
      exact lookupA_setFieldErrorBag_ne _ _ _ _ (Ne.symm hq)
  | some e =>
    refine ⟨?_, ?_⟩
    · simp only [reconcileStep, hl]
      split
      · exact lookupA_setA_ne _ _ _ _ (Ne.symm hq)
      · split
        · exact lookupA_setA_ne _ _ _ _ (Ne.symm hq)
        · rw [lookupA_setA_ne _ _ _ _ (Ne.symm hq), lookupA_setA_ne _ _ _ _ (Ne.symm hq)]
    · simp only [reconcileStep, hl]
      split
      · rfl
      · split <;> rfl

theorem reconcileStep_self_none (mode : SchemaValidationMode) (res : SchemaResult)
    (acc : FormS × FormVRes) (p : PathStr) (hl : lookupA acc.1.reg p = none) :
    lookupA (reconcileStep mode res acc p).1.reg p = none ∧
    lookupA (reconcileStep mode res acc p).1.bag p = some (msgsOf res p) := by
  simp only [reconcileStep, hl]
  refine ⟨trivial, ?_⟩
  simp [lookupA_setFieldErrorBag_self, errMsgTruthy, normalizeErrorItem]

theorem reconcileStep_self_some (mode : SchemaValidationMode) (res : SchemaResult)
    (acc : FormS × FormVRes) (p : PathStr) (e : FieldEntry)
    (hl : lookupA acc.1.reg p = some e) :
    lookupA (reconcileStep mode res acc p).1.reg p =
      some (stepEntry mode (msgsOf res p) e) ∧
    lookupA (reconcileStep mode res acc p).1.bag p = lookupA acc.1.bag p := by
  refine ⟨?_, ?_⟩ <;> simp only [reconcileStep, hl]
  · simp only [stepEntry]
    split
    · rw [lookupA_setA_self]
    · split
      · rw [lookupA_setA_self]
      · rw [setA_setA, lookupA_setA_self]
  · split
    · rfl
    · split <;> rfl

theorem foldl_reconcile_not_mem (mode : SchemaValidationMode) (res : SchemaResult)
    (paths : List PathStr) (acc : FormS × FormVRes) (q : PathStr) (hq : q ∉ paths) :
    lookupA ((paths.foldl (reconcileStep mode res) acc).1).reg q = lookupA acc.1.reg q ∧
    lookupA ((paths.foldl (reconcileStep mode res) acc).1).bag q = lookupA acc.1.bag q := by
  induction paths generalizing acc with
  | nil => exact ⟨rfl, rfl⟩
  | cons p ps ih =>
    have hqp : q ≠ p := fun h => hq (h ▸ List.mem_cons_self p ps)
    have hq' : q ∉ ps := fun h => hq (List.mem_cons_of_mem _ h)
    rw [List.foldl_cons]
    obtain ⟨hr, hb⟩ := ih (reconcileStep mode res acc p) hq'
    obtain ⟨hr', hb'⟩ := reconcileStep_other mode res acc p q hqp
    exact ⟨hr.trans hr', hb.trans hb'⟩

theorem foldl_reconcile_mem (mode : SchemaValidationMode) (res : SchemaResult)
    (paths : List PathStr) (acc : FormS × FormVRes) (q : PathStr)
    (hnd : paths.Nodup) (hq : q ∈ paths) :
    (lookupA acc.1.reg q = none →
      lookupA ((paths.foldl (reconcileStep mode res) acc).1).reg q = none ∧
      lookupA ((paths.foldl (reconcileStep mode res) acc).1).bag q = some (msgsOf res q)) ∧
    (∀ e, lookupA acc.1.reg q = some e →
      lookupA ((paths.foldl (reconcileStep mode res) acc).1).reg q =
        some (stepEntry mode (msgsOf res q) e) ∧
      lookupA ((paths.foldl (reconcileStep mode res) acc).1).bag q =
        lookupA acc.1.bag q) := by
  induction paths generalizing acc with
  | nil => simp at hq
  | cons p ps ih =>
    rw [List.foldl_cons]
    obtain ⟨hpn, hnd'⟩ := List.nodup_cons.mp hnd
    by_cases hqp : q = p
    · subst hqp
      constructor
      · intro hl
        obtain ⟨h1, h2⟩ := reconcileStep_self_none mode res acc q hl
        obtain ⟨hr, hb⟩ :=
          foldl_reconcile_not_mem mode res ps (reconcileStep mode res acc q) q hpn
        exact ⟨hr.trans h1, hb.trans h2⟩
      · intro e hl
        obtain ⟨h1, h2⟩ := reconcileStep_self_some mode res acc q e hl
        obtain ⟨hr, hb⟩ :=
          foldl_reconcile_not_mem mode res ps (reconcileStep mode res acc q) q hpn
        exact ⟨hr.trans h1, hb.trans h2⟩
    · have hq' : q ∈ ps := by
        rcases List.mem_cons.mp hq with h | h
        · exact absurd h hqp
        · exact h
      obtain ⟨hr0, hb0⟩ := reconcileStep_other mode res acc p q hqp
      have hrec := ih (reconcileStep mode res acc p) hnd' hq'
      constructor
      · intro hl
        exact hrec.1 (hr0.trans hl)
      · intro e hl
        obtain ⟨h1, h2⟩ := hrec.2 e (hr0.trans hl)
        exact ⟨h1, h2.trans hb0⟩

theorem validateSchemaModel_at_some (mode : SchemaValidationMode) (st : FormS)
    (res : SchemaResult) (p : PathStr) (e : FieldEntry)
    (h : lookupA st.reg p = some e) :
    lookupA (validateSchemaModel mode st res).1.reg p =
      some (stepEntry mode (msgsOf res p) e) ∧
    lookupA (validateSchemaModel mode st res).1.bag p = lookupA st.bag p := by
  have hmem : p ∈ schemaPaths st res := by
    rw [schemaPaths, mem_dedupFirst]
    exact List.mem_append.mpr
      (Or.inl (List.mem_append.mpr (Or.inr (mem_keys_of_lookupA_eq_some _ _ _ h))))
  exact (foldl_reconcile_mem mode res (schemaPaths st res)
    (st, { valid := res.valid, results := [], errors := [] }) p
    (nodup_dedupFirst _) hmem).2 e h

theorem validateSchemaModel_at_none (mode : SchemaValidationMode) (st : FormS)
    (res : SchemaResult) (p : PathStr)
    (hmem : p ∈ schemaPaths st res) (h : lookupA st.reg p = none) :
    lookupA (validateSchemaModel mode st res).1.reg p = none ∧
    lookupA (validateSchemaModel mode st res).1.bag p = some (msgsOf res p) :=
  (foldl_reconcile_mem mode res (schemaPaths st res)
    (st, { valid := res.valid, results := [], errors := [] }) p
    (nodup_dedupFirst _) hmem).1 h

theorem entryFieldsList_mapEntryFields (g : Field → Field) (e : FieldEntry) :
    entryFieldsList (mapEntryFields g e) = (entryFieldsList e).map g := by
  cases e <;> simp [entryFieldsList, mapEntryFields]

theorem stepEntry_valid_map (mode : SchemaValidationMode) (msgs : List String)
    (e : FieldEntry) :
    (entryFieldsList (stepEntry mode msgs e)).map (·.valid) =
      (entryFieldsList e).map (fun _ => msgs.isEmpty) := by
  simp only [stepEntry]
  split
  · rw [entryFieldsList_mapEntryFields, List.map_map]
    rfl
  · split
    · rw [entryFieldsList_mapEntryFields, List.map_map]
      rfl
    · rw [entryFieldsList_mapEntryFields, entryFieldsList_mapEntryFields,
        List.map_map, List.map_map]
      rfl

/-- C2 [corrected]: the reconciliation walks, exactly once each, the union
of the schema result paths, the registered field paths, and all error-bag
keys — not only the non-empty error-bag entries, since the bag can hold
empty entries and their keys are walked too.  For a walked path with no
registered field the schema messages are written directly into the error
bag; for a registered field the entry's fields always get their valid meta
flag set from the schema messages, in every mode. -/
theorem vv_C2 (mode : SchemaValidationMode) (st : FormS) (res : SchemaResult) :
    ((schemaPaths st res).Nodup
      ∧ ∀ p, p ∈ schemaPaths st res ↔
          (p ∈ res.results.map Prod.fst ∨ p ∈ st.reg.map Prod.fst
            ∨ p ∈ st.bag.map Prod.fst))
    ∧ (∀ p, p ∈ schemaPaths st res → lookupA st.reg p = none →
        lookupA (validateSchemaModel mode st res).1.bag p = some (msgsOf res p))
    ∧ (∀ p e, lookupA st.reg p = some e →
        lookupA (validateSchemaModel mode st res).1.reg p =
          some (stepEntry mode (msgsOf res p) e)
        ∧ (entryFieldsList (stepEntry mode (msgsOf res p) e)).map (·.valid) =
            (entryFieldsList e).map (fun _ => (msgsOf res p).isEmpty)) := by
  refine ⟨⟨nodup_dedupFirst _, ?_⟩, ?_, ?_⟩
  · intro p
    simp [schemaPaths, mem_dedupFirst, or_assoc]
  · intro p hmem h
    exact (validateSchemaModel_at_none mode st res p hmem h).2
  · intro p e h
    exact ⟨(validateSchemaModel_at_some mode st res p e h).1,
      stepEntry_valid_map mode (msgsOf res p) e⟩

/-- C2 counterexample: the claim limits the walked union to paths with
non-empty error-bag entries; a path holding an empty bag entry (reachable
by setFieldErrorBag with an empty message array) is walked by the
reconciliation although it has no non-empty entry, no schema result and no
registered field. -/
theorem vv_C2_counterexample :
    ¬ (∀ (st : FormS) (res : SchemaResult) (p : PathStr),
        p ∈ schemaPaths st res ↔
          (p ∈ res.results.map Prod.fst ∨ p ∈ st.reg.map Prod.fst
            ∨ ∃ l, lookupA st.bag p = some l ∧ l ≠ [])) := by
  intro h
  have hz := (h stC2cex resEmpty "z").mp (by decide)
  rcases hz with hz | hz | ⟨l, hl, hne⟩
  · revert hz; decide
  · revert hz; decide
  · have hemp : lookupA stC2cex.bag "z" = some [] := by decide
    rw [hemp] at hl
    injection hl with hl'
    exact hne hl'.symm

/-- C2 witness: on a concrete run with one registered field at a, a stale
error at x and a schema error at the unregistered path b, the walked set
is the three-path union, the error for b is written straight into the bag,
and the field at a has its valid flag set true in silent mode. -/
theorem vv_C2_witness :
    lookupA (validateSchemaModel .silent stC2w resC2w).1.bag "b" = some ["msg"]
    ∧ lookupA (validateSchemaModel .silent stC2w resC2w).1.reg "a" =
        some (stepEntry .silent (msgsOf resC2w "a") (.single fC2w)) := by
  obtain ⟨-, hb, hr⟩ := vv_C2 .silent stC2w resC2w
  refine ⟨?_, (hr "a" (.single fC2w) (by decide)).1⟩
  have := hb "b" (by decide) (by decide)
  simpa using this

/-- C3 [confirmed]: a silent schema run leaves every registered field's
error state and validated flag untouched while still updating its valid
meta flag, and leaves the field's error-bag entry unchanged; a
validated-only run does the same for an entry none of whose fields was
ever validated.  (The field's own error state is the errors component of
the modelled field record, per the spec's field contract.) -/
theorem vv_C3 (st : FormS) (res : SchemaResult) (p : PathStr) (e : FieldEntry)
    (h : lookupA st.reg p = some e) :
    (lookupA (validateSchemaModel .silent st res).1.reg p =
        some (mapEntryFields (fun f => { f with valid := (msgsOf res p).isEmpty }) e)
      ∧ lookupA (validateSchemaModel .silent st res).1.bag p = lookupA st.bag p)
    ∧ (entryAnyValidated e = false →
        lookupA (validateSchemaModel .validatedOnly st res).1.reg p =
          some (mapEntryFields (fun f => { f with valid := (msgsOf res p).isEmpty }) e)
        ∧ lookupA (validateSchemaModel .validatedOnly st res).1.bag p = lookupA st.bag p) := by
  constructor
  · obtain ⟨hr, hb⟩ := validateSchemaModel_at_some .silent st res p e h
    refine ⟨?_, hb⟩
    rw [hr]
    simp [stepEntry]
  · intro hval
    obtain ⟨hr, hb⟩ := validateSchemaModel_at_some .validatedOnly st res p e h
    refine ⟨?_, hb⟩
    rw [hr]
    simp [stepEntry, hval]

/-- C3 witness: a silent run over the concrete state with a never-validated
field at a carrying an error — the bag entry at a is untouched and the
registry entry keeps its errors with only the valid flag updated. -/
theorem vv_C3_witness :
    lookupA (validateSchemaModel .silent stC3w resC3w).1.bag "a" = lookupA stC3w.bag "a"
    ∧ lookupA (validateSchemaModel .silent stC3w resC3w).1.reg "a" =
        some (mapEntryFields (fun f => { f with valid := (msgsOf resC3w "a").isEmpty }) eC3w) := by
  obtain ⟨⟨hr, hb⟩, -⟩ := vv_C3 stC3w resC3w "a" eC3w (by decide)
  exact ⟨hb, hr⟩

end VeeValidate
